import Mathlib

/-!
Verification of the Wheatley row-generation, rhythm and ringing-state-machine
core against its specification.  Bells are modelled by their 1-indexed
numbers (`Nat`), rows by `List Nat`, strokes by `Bool` (`true` = handstroke,
mirroring `Stroke._is_handstroke`), and wall-clock / blow times by `ℚ`
(the Python code uses IEEE floats; we model the intended real arithmetic).
-/

namespace Wheatley

/-- Names of the bells, from `wheatley/bell.py` (`BELL_NAMES`). -/
def BELL_NAMES : List Char :=
  ['1', '2', '3', '4', '5', '6', '7', '8', '9', '0', 'E', 'T', 'A', 'B', 'C', 'D']

/-- Rounds on `n` bells: the row `[1, 2, ..., n]`
(`wheatley/row_generation/helpers.py`, `rounds`). -/
def rounds (numberOfBells : Nat) : List Nat :=
  List.range' 1 numberOfBells

/-- Swap the elements at indices `i` and `i + 1` of a list (out-of-range
indices leave the list unchanged).  This is the elementary step
`new_row[i - 1], new_row[i] = new_row[i], new_row[i - 1]` of
`RowGenerator.permute`, performed at index `i - 1`. -/
def swapAt {α : Type} : List α → Nat → List α
  | a :: b :: rest, 0 => b :: a :: rest
  | a :: rest, Nat.succ n => a :: swapAt rest n
  | l, _ => l

/-- Loop body of `RowGenerator.permute` (`row_generator.py` lines 114-121).
The counter `k` tracks the remaining loop bound `stage - i` exactly:
the Python loop runs `while i < stage`, incrementing `i` by 1 when
`i in places` and by 2 (after swapping positions `i-1` and `i`) otherwise. -/
def permuteAux (places : List Nat) : List Nat → Nat → Nat → List Nat
  | l, _, 0 => l
  | l, i, 1 =>
    if i ∈ places then permuteAux places l (i + 1) 0
    else swapAt l (i - 1)
  | l, i, k + 2 =>
    if i ∈ places then permuteAux places l (i + 1) (k + 1)
    else permuteAux places (swapAt l (i - 1)) (i + 2) k

/-- The permutation operation `RowGenerator.permute(row, places)`
(`row_generator.py` lines 105-123): scan from place 1 (or 2 when the lowest
explicit place is even, skipping the implicit lead), keeping places listed in
`places` and swapping every other adjacent pair. -/
def permute (stage : Nat) (row : List Nat) (places : List Nat) : List Nat :=
  let start : Nat :=
    match places with
    | [] => 1
    | p :: _ => if p % 2 == 0 then 2 else 1
  permuteAux places row start (stage - start)

/-- The row produced by `PlainHuntGenerator._gen_row`
(`plain_hunt_generator.py` lines 16-19): cross at handstroke, hold places
1 and `stage` at backstroke. -/
def plainHuntGenRow (stage : Nat) (previousRow : List Nat) (strokeIsHand : Bool) :
    List Nat :=
  if strokeIsHand then permute stage previousRow []
  else permute stage previousRow [1, stage]

/-- Successive rows produced by a `PlainHuntGenerator` when `next_row` is
called once per stroke in the given stroke sequence (each generated row is
passed back in as `previous_row`, as `RowGenerator.next_row_and_calls` does). -/
def plainHuntRows (stage : Nat) : List Nat → List Bool → List (List Nat)
  | _, [] => []
  | row, stroke :: rest =>
    let r := plainHuntGenRow stage row stroke
    r :: plainHuntRows stage r rest

theorem swapAt_perm {α : Type} : ∀ (l : List α) (i : Nat), (swapAt l i).Perm l := by
  intro l
  induction l with
  | nil => intro i; cases i <;> rfl
  | cons a rest ih =>
    intro i
    cases i with
    | zero =>
      cases rest with
      | nil => rfl
      | cons b rest' => exact List.Perm.swap a b rest'
    | succ n =>
      cases rest with
      | nil => rfl
      | cons b rest' =>
        show (a :: swapAt (b :: rest') n).Perm (a :: b :: rest')
        exact List.Perm.cons a (ih n)

theorem permuteAux_perm (places : List Nat) :
    ∀ (k : Nat) (l : List Nat) (i : Nat), (permuteAux places l i k).Perm l := by
  intro k
  induction k using Nat.strong_induction_on with
  | _ k ih =>
    intro l i
    match k with
    | 0 => exact List.Perm.refl l
    | 1 =>
      rw [permuteAux]
      by_cases h : i ∈ places
      · simp only [h, if_true]
        exact ih 0 (by omega) l (i + 1)
      · simp only [h, if_false]
        exact swapAt_perm l (i - 1)
    | k' + 2 =>
      rw [permuteAux]
      by_cases h : i ∈ places
      · simp only [h, if_true]
        exact ih (k' + 1) (by omega) l (i + 1)
      · simp only [h, if_false]
        exact ((ih k' (by omega) (swapAt l (i - 1)) (i + 2)).trans
          (swapAt_perm l (i - 1)))

theorem permute_perm (stage : Nat) (row : List Nat) (places : List Nat) :
    (permute stage row places).Perm row := by
  unfold permute
  exact permuteAux_perm places _ row _

/-- C1: for every place list whose entries are valid 1-indexed places for the
generator's stage `N`, and every input row that is a permutation of the bells
`1..N`, `RowGenerator.permute(row, places)` returns a row that is again a
permutation of exactly the bells `1..N` — no bell is created, duplicated, or
destroyed. -/
theorem permute_is_permutation (N : Nat) (places : List Nat) (row : List Nat)
    (_hplaces : ∀ p ∈ places, 1 ≤ p ∧ p ≤ N)
    (hrow : row.Perm (rounds N)) :
    (permute N row places).Perm (rounds N) :=
  (permute_perm N row places).trans hrow

theorem permute_is_permutation_witness :
    (∀ p ∈ [1, 4], 1 ≤ p ∧ p ≤ 4) ∧ ([2, 1, 4, 3] : List Nat).Perm (rounds 4) ∧
      (permute 4 [2, 1, 4, 3] [1, 4]).Perm (rounds 4) :=
  ⟨by decide, by decide,
    permute_is_permutation 4 [1, 4] [2, 1, 4, 3] (by decide) (by decide)⟩

/-- C3: a `PlainHuntGenerator` with stage 4, started from rounds, asked for 8
successive rows with strokes alternating Hand, Back, Hand, ... (starting at
Hand), produces exactly the rows `[2,1,4,3], [2,4,1,3], [4,2,3,1], [4,3,2,1],
[3,4,1,2], [3,1,4,2], [1,3,2,4], [1,2,3,4]`; the 8th row is rounds again. -/
theorem plain_hunt_minimus_round_trip :
    plainHuntRows 4 (rounds 4) [true, false, true, false, true, false, true, false] =
      [[2, 1, 4, 3], [2, 4, 1, 3], [4, 2, 3, 1], [4, 3, 2, 1],
       [3, 4, 1, 2], [3, 1, 4, 2], [1, 3, 2, 4], [1, 2, 3, 4]] := by
  decide

/-! ## Place-notation parsing (`wheatley/row_generation/helpers.py`) -/

/-- Model of `re.sub("[.]*[x-][.]*", ".-.", s)` (`helpers.py` lines 44 and 70):
scanning left to right, every maximal group `(run of dots)('x' or '-')(run of
dots)` is replaced by `".-."`.  The counter `d` holds a pending run of dots not
yet known to belong to a match; `swallow` is set just after a replacement, while
the trailing dots of that match are being consumed. -/
def subCrossAux : Bool → Nat → List Char → List Char
  | _, d, [] => List.replicate d '.'
  | swallow, d, c :: rest =>
    if c = '.' then
      if swallow then subCrossAux true 0 rest
      else subCrossAux false (d + 1) rest
    else if c = 'x' ∨ c = '-' then
      '.' :: '-' :: '.' :: subCrossAux true 0 rest
    else
      List.replicate d '.' ++ c :: subCrossAux false 0 rest

def subCross (s : List Char) : List Char :=
  subCrossAux false 0 s

/-- A character stripped from both ends by `.strip(".&+ ")`. -/
def isStripChar (c : Char) : Bool :=
  c = '.' ∨ c = '&' ∨ c = '+' ∨ c = ' '

/-- Model of `.strip(".&+ ")`: drop the characters of the strip set from both
ends of the string. -/
def stripChars (l : List Char) : List Char :=
  ((l.dropWhile isStripChar).reverse.dropWhile isStripChar).reverse

/-- Model of `.replace("..", ".")`: replace non-overlapping occurrences of two
dots by one dot, scanning left to right. -/
def replaceDD : List Char → List Char
  | '.' :: '.' :: rest => '.' :: replaceDD rest
  | c :: rest => c :: replaceDD rest
  | [] => []

/-- Model of Python `str.split(sep)` for a one-character separator: adjacent
separators produce empty pieces, and the result is never empty. -/
def splitOnChar (sep : Char) : List Char → List (List Char)
  | [] => [[]]
  | c :: rest =>
    if c = sep then [] :: splitOnChar sep rest
    else
      match splitOnChar sep rest with
      | t :: ts => (c :: t) :: ts
      | [] => [[c]]

/-- Position of a character in a list of names (Python `list.index`, as an
`Option` rather than an exception). -/
def indexIn (c : Char) : List Char → Option Nat
  | [] => none
  | x :: xs => if x = c then some 0 else (indexIn c xs).map (· + 1)

/-- The conversion `convert_bell_string` (`helpers.py` lines 85-90):
`BELL_NAMES.index(bell) + 1`, raising `ValueError` with a message naming the
offending symbol when the character is not a bell name. -/
def convert_bell_string (bell : Char) : Except String Nat :=
  match indexIn bell BELL_NAMES with
  | some i => Except.ok (i + 1)
  | none => Except.error ("'" ++ bell.toString ++ "' is not known bell symbol")

/-- The shared tokenising pipeline of `convert_pn` (`helpers.py` lines 67-78):
normalise crosses, strip `".&+ "`, collapse `".."`, split on `'.'`, and convert
each piece (`"-"` becomes the cross, i.e. the empty place list). -/
def parsePlaces (s : List Char) : Except String (List (List Nat)) :=
  let dotDelimited := stripChars (subCross s)
  let pieces := splitOnChar '.' (replaceDD dotDelimited)
  pieces.mapM (fun place =>
    if place = ['-'] then Except.ok []
    else place.mapM convert_bell_string)

def startsWithChar (c : Char) : List Char → Bool
  | [] => false
  | x :: _ => x = c

/-- The `symmetric` flag of `convert_pn` (`helpers.py` lines 62-65): when a
symmetric section is expected (a comma part), every part not starting with
`'+'` is symmetric; otherwise only strings starting with `'&'` are. -/
def symFlag (expectSymmetric : Bool) (s : List Char) : Bool :=
  if expectSymmetric then !(startsWithChar '+' s) else startsWithChar '&' s

/-- The comma-free branch of `convert_pn`: parse the place lists and, for a
symmetric notation, append the reverse of all but the last place list. -/
def convertNoComma (s : List Char) (expectSymmetric : Bool) :
    Except String (List (List Nat)) :=
  (parsePlaces s).map (fun conv =>
    if symFlag expectSymmetric s then conv ++ conv.dropLast.reverse else conv)

/-- The parser `convert_pn` (`helpers.py` lines 57-82).  A string containing a
comma is split on it and each part is converted with `expect_symmetric=True`
(the parts contain no comma, so the recursive Python call lands in the
comma-free branch modelled by `convertNoComma`); the results are concatenated.
The first failing conversion raises, as in Python. -/
def convert_pn (s : String) (expectSymmetric : Bool) :
    Except String (List (List Nat)) :=
  if ',' ∈ s.data then
    ((splitOnChar ',' s.data).mapM (fun part => convertNoComma part true)).map
      List.flatten
  else convertNoComma s.data expectSymmetric

/-- The comma-free branch of `valid_pn` (`helpers.py` lines 41-54): tokenise as
`convert_pn` does and accept when every non-cross piece consists of characters
whose upper-case form is a bell name. -/
def validNoComma (s : List Char) : Bool :=
  let pieces := splitOnChar '.' (replaceDD (stripChars (subCross s)))
  pieces.all (fun place =>
    if place = ['-'] then true else place.all (fun y => y.toUpper ∈ BELL_NAMES))

/-- The validator `valid_pn` (`helpers.py` lines 31-54).  A string containing a
comma is valid when all its comma-separated parts are (the parts contain no
comma, so the recursive Python call lands in the comma-free branch). -/
def valid_pn (s : String) : Bool :=
  if ',' ∈ s.data then (splitOnChar ',' s.data).all (fun part => validNoComma part)
  else validNoComma s.data

/-- C2: `convert_pn` satisfies the spec's parsing examples — `"-1"` and `"x1"`
parse to `[CROSS, [1]]`, `"12.3-123"` to `[[1,2], [3], CROSS, [1,2,3]]`,
`"&-1"` to `[CROSS, [1], CROSS]`; for every symmetric notation string the
result is the parsed place lists followed by their reverse excluding the last
element; and parsing the unknown bell symbol `"F"` raises an error whose
message names `'F'`.  (`CROSS` is the empty place list.) -/
theorem convert_pn_parsing_examples :
    convert_pn "-1" false = Except.ok [[], [1]] ∧
    convert_pn "x1" false = Except.ok [[], [1]] ∧
    convert_pn "12.3-123" false = Except.ok [[1, 2], [3], [], [1, 2, 3]] ∧
    convert_pn "&-1" false = Except.ok [[], [1], []] ∧
    (∀ (s : List Char) (es : Bool) (conv : List (List Nat)),
      parsePlaces s = Except.ok conv → symFlag es s = true →
      convertNoComma s es = Except.ok (conv ++ conv.dropLast.reverse)) ∧
    convert_pn "F" false = Except.error "'F' is not known bell symbol" := by
  refine ⟨by rfl, by rfl, by rfl, by rfl, ?_, by rfl⟩
  intro s es conv hparse hsym
  simp [convertNoComma, Except.map, hparse, hsym]

theorem convert_pn_parsing_examples_witness :
    parsePlaces "&-1".data = Except.ok [[], [1]] ∧
    symFlag false "&-1".data = true ∧
    convertNoComma "&-1".data false =
      Except.ok ([[], [1]] ++ ([[], [1]] : List (List Nat)).dropLast.reverse) :=
  ⟨by rfl, by rfl,
    convert_pn_parsing_examples.2.2.2.2.1 "&-1".data false [[], [1]]
      (by rfl) (by rfl)⟩

/-- C10 (code bug): `valid_pn` accepts the lower-case bell symbol `"e"`
(it upper-cases before checking membership in `BELL_NAMES`), but `convert_pn`
on the very same string raises `ValueError: 'e' is not known bell symbol`
(`convert_bell_string` does not upper-case) — contradicting `valid_pn`'s own
docstring, which promises that an accepted string "can be converted into a
list of places". -/
theorem valid_pn_accepts_string_convert_pn_rejects :
    valid_pn "e" = true ∧
    convert_pn "e" false = Except.error "'e' is not known bell symbol" := by
  exact ⟨by rfl, by rfl⟩

/-! ## PlaceNotationGenerator (`wheatley/row_generation/place_notation_generator.py`)

The mutable state of a generator instance is split from its immutable
configuration.  `PNState` holds the fields of the abstract base class
`RowGenerator` (`_has_bob`, `_has_single`, `_index`, `_row`) together with the
subclass field `_generating_call_pn`. -/

structure PNGen where
  stage : Nat
  methodPn : List (List Nat)
  bobsPn : List (Nat × List (List Nat))
  singlesPn : List (Nat × List (List Nat))
  startIndex : Nat
deriving DecidableEq

structure PNState where
  hasBob : Bool
  hasSingle : Bool
  index : Nat
  row : List Nat
  generatingCallPn : List (List Nat)
deriving DecidableEq

/-- Lookup in an association list, modelling Python `dict.get` (the call
dictionaries are small and have distinct keys). -/
def lookupNat {α : Type} : List (Nat × α) → Nat → Option α
  | [], _ => none
  | (k, v) :: rest, key => if k = key then some v else lookupNat rest key

/-- Python truthiness of `dict.get(...)`: `None` and the empty list are falsy. -/
def truthy : Option (List (List Nat)) → Bool
  | none => false
  | some l => !l.isEmpty

/-- The state of a freshly constructed generator (`RowGenerator.__init__`,
`row_generator.py` lines 17-24, plus `_generating_call_pn = []` from
`PlaceNotationGenerator.__init__`). -/
def PNGen.initState (g : PNGen) : PNState :=
  { hasBob := false, hasSingle := false, index := 0, row := rounds g.stage,
    generatingCallPn := [] }

/-- The method `RowGenerator.reset` (`row_generator.py` lines 26-33): clears
the call flags, returns to index 0 and rounds.  It is a base-class method and
does not touch the subclass field `_generating_call_pn`. -/
def PNGen.reset (g : PNGen) (s : PNState) : PNState :=
  { s with hasBob := false, hasSingle := false, index := 0, row := rounds g.stage }

/-- `RowGenerator.set_bob` (`row_generator.py` lines 59-61). -/
def setBob (s : PNState) : PNState :=
  { s with hasBob := true }

/-- `RowGenerator.set_single` (`row_generator.py` lines 63-65). -/
def setSingle (s : PNState) : PNState :=
  { s with hasSingle := true }

/-- `PlaceNotationGenerator._gen_row` (`place_notation_generator.py` lines
59-77).  `none` models the failure of `assert self.lead_len > 0`.  A pending
bob (or, failing that, a single) whose call table has a truthy entry at the
current lead index loads `_generating_call_pn` and clears both flags
(`reset_calls`); the place notation rung is then popped from
`_generating_call_pn` if non-empty, and taken from the plain course otherwise.
This generator ignores the stroke argument. -/
def PNGen.genRow (g : PNGen) (s : PNState) : Option (List Nat × PNState) :=
  if g.methodPn.length = 0 then none
  else
    let leadIndex := (s.index + g.startIndex) % g.methodPn.length
    let s1 :=
      if s.hasBob ∧ truthy (lookupNat g.bobsPn leadIndex) then
        { s with generatingCallPn := (lookupNat g.bobsPn leadIndex).getD [],
                 hasBob := false, hasSingle := false }
      else if s.hasSingle ∧ truthy (lookupNat g.singlesPn leadIndex) then
        { s with generatingCallPn := (lookupNat g.singlesPn leadIndex).getD [],
                 hasBob := false, hasSingle := false }
      else s
    let step : List Nat × PNState :=
      match s1.generatingCallPn with
      | p :: rest => (p, { s1 with generatingCallPn := rest })
      | [] => (g.methodPn.getD leadIndex [], s1)
    some (permute g.stage s.row step.1, step.2)

/-- `RowGenerator.next_row_and_calls` (`row_generator.py` lines 48-57)
specialised to this generator: generate the row from the stored previous row,
store it, and advance the index. -/
def PNGen.nextRow (g : PNGen) (s : PNState) : Option (List Nat × PNState) :=
  (g.genRow s).map fun p => (p.1, { p.2 with row := p.1, index := p.2.index + 1 })

/-- Run a generator for `n` successive calls of `next_row`, collecting the
emitted rows and the final state. -/
def PNGen.run (g : PNGen) (s : PNState) : Nat → Option (List (List Nat) × PNState)
  | 0 => some ([], s)
  | n + 1 =>
    match g.nextRow s with
    | none => none
    | some (r, s') => (g.run s' n).map fun p => (r :: p.1, p.2)

/-- The call-table parser `parse_call_dict` inside
`PlaceNotationGenerator.__init__` (`place_notation_generator.py` lines 35-48):
each place-notation string is converted and stored at key
`(i - 1) % lead_len` (Python `%` on a negative int with positive modulus is
non-negative, as is Lean's `Int` `%`). -/
def parse_call_dict (leadLen : Nat) (calls : List (Int × String)) :
    Except String (List (Nat × List (List Nat))) :=
  calls.mapM fun iv =>
    (convert_pn iv.2 false).map fun pns => (((iv.1 - 1) % (leadLen : Int)).toNat, pns)

/-- `PlaceNotationGenerator.DefaultBob` (`{0: '14'}`). -/
def DefaultBob : List (Int × String) := [(0, "14")]

/-- `PlaceNotationGenerator.DefaultSingle` (`{0: '1234'}`). -/
def DefaultSingle : List (Int × String) := [(0, "1234")]

/-- `PlaceNotationGenerator.__init__` (`place_notation_generator.py` lines
20-53): parse the method and both call tables. -/
def mkPlaceNotationGenerator (stage : Nat) (method : String)
    (bob single : List (Int × String)) (startIndex : Nat) : Except String PNGen :=
  (convert_pn method false).bind fun methodPn =>
    (parse_call_dict methodPn.length bob).bind fun bobsPn =>
      (parse_call_dict methodPn.length single).map fun singlesPn =>
        { stage := stage, methodPn := methodPn, bobsPn := bobsPn,
          singlesPn := singlesPn, startIndex := startIndex }

/-- `convert_to_bell_string` (`helpers.py` lines 93-98). -/
def convert_to_bell_string (bell : Nat) : Except String String :=
  if bell ≤ 0 ∨ bell ≥ BELL_NAMES.length + 1 then
    Except.error ("'" ++ toString bell ++ "' is not known bell number")
  else Except.ok (BELL_NAMES.getD (bell - 1) ' ').toString

/-- The static constructor `PlaceNotationGenerator.grandsire`
(`place_notation_generator.py` lines 82-93). -/
def grandsire (stage : Nat) : Except String PNGen :=
  (convert_to_bell_string stage).bind fun stageBell =>
    let crossNotation := if stage % 2 ≠ 0 then stageBell else "-"
    let mainBody :=
      ((List.range (2 * stage)).map fun i =>
        if i % 2 ≠ 0 then "1" else crossNotation).set 0 "3"
    mkPlaceNotationGenerator stage (String.intercalate "." mainBody)
      [(-1, "3")] [(-1, "3.123")] 0

def dummyPNGen : PNGen :=
  { stage := 0, methodPn := [], bobsPn := [], singlesPn := [], startIndex := 0 }

/-- The Plain-Bob-Minimus generator of the spec,
`PlaceNotationGenerator(4, "&x1x1,2")` with default calls. -/
def plainBobMinimus : PNGen :=
  (mkPlaceNotationGenerator 4 "&x1x1,2" DefaultBob DefaultSingle 0).toOption.getD
    dummyPNGen

/-- Grandsire Doubles, used to exhibit a non-empty `_generating_call_pn`
surviving `reset`. -/
def grandsireDoubles : PNGen :=
  (grandsire 5).toOption.getD dummyPNGen

/-- The spec's bob-override scenario: ring 6 rows plain from rounds, call
`set_bob()`, then ring 2 more rows. -/
def bobScenario : Option (List (List Nat) × PNState) :=
  (plainBobMinimus.run plainBobMinimus.initState 6).bind fun p =>
    (plainBobMinimus.run (setBob p.2) 2).map fun q => (p.1 ++ q.1, q.2)

/-- C4: the Plain-Bob-Minimus generator (`"&x1x1,2"`, default calls), rung
plain from rounds for 6 rows and then given `set_bob()`, produces rounds
`[1,2,3,4]` as its lead-end (8th) row instead of the plain continuation
`[1,3,4,2]`; afterwards both call flags are clear and `_generating_call_pn` is
empty, and the following 8 rows coincide with a plain lead — the pending bob
is consumed exactly once and alters no later lead. -/
theorem plain_bob_minimus_bob_override :
    mkPlaceNotationGenerator 4 "&x1x1,2" DefaultBob DefaultSingle 0 =
      Except.ok plainBobMinimus ∧
    (plainBobMinimus.run plainBobMinimus.initState 8).map Prod.fst =
      some [[2, 1, 4, 3], [2, 4, 1, 3], [4, 2, 3, 1], [4, 3, 2, 1],
            [3, 4, 1, 2], [3, 1, 4, 2], [1, 3, 2, 4], [1, 3, 4, 2]] ∧
    bobScenario.map Prod.fst =
      some [[2, 1, 4, 3], [2, 4, 1, 3], [4, 2, 3, 1], [4, 3, 2, 1],
            [3, 4, 1, 2], [3, 1, 4, 2], [1, 3, 2, 4], [1, 2, 3, 4]] ∧
    bobScenario.map (fun p => (p.2.hasBob, p.2.hasSingle, p.2.generatingCallPn)) =
      some (false, false, []) ∧
    bobScenario.bind (fun p => (plainBobMinimus.run p.2 8).map Prod.fst) =
      some [[2, 1, 4, 3], [2, 4, 1, 3], [4, 2, 3, 1], [4, 3, 2, 1],
            [3, 4, 1, 2], [3, 1, 4, 2], [1, 3, 2, 4], [1, 3, 4, 2]] := by
  exact ⟨by rfl, by rfl, by rfl, by rfl, by rfl⟩

/-- C5 (counterexample): `reset()` does not always restore fresh behaviour.
Grandsire Doubles is given a single; its two-change call (`"3.123"`) starts at
lead index 8, so after 9 rows `_generating_call_pn` still holds `[[1,2,3]]`.
`RowGenerator.reset` does not clear that subclass field, so the first row
generated after `reset()` is `[1,2,3,5,4]` (the leftover call change applied
to rounds), whereas a freshly constructed generator first produces
`[2,1,3,5,4]`. -/
theorem reset_not_fresh_counterexample :
    grandsire 5 = Except.ok grandsireDoubles ∧
    ((grandsireDoubles.run (setSingle grandsireDoubles.initState) 9).bind fun p =>
        (grandsireDoubles.run (grandsireDoubles.reset p.2) 1).map Prod.fst) =
      some [[1, 2, 3, 5, 4]] ∧
    (grandsireDoubles.run grandsireDoubles.initState 1).map Prod.fst =
      some [[2, 1, 3, 5, 4]] ∧
    some [[1, 2, 3, 5, 4]] ≠ some [[2, 1, 3, 5, 4]] := by
  exact ⟨by rfl, by rfl, by rfl, by decide⟩

/-- C5 (amended): `reset()` returns a place-notation generator to a state from
which, for every `N`, the next `N` generated rows equal the first `N` rows of
a freshly constructed generator with the same configuration, provided no call
place notation is still partially consumed at the moment of the reset (i.e.
`_generating_call_pn` is empty — `RowGenerator.reset` clears every other piece
of mutable state but not that field). -/
theorem reset_restores_fresh_state_when_no_pending_call (g : PNGen) (s : PNState)
    (h : s.generatingCallPn = []) (n : Nat) :
    g.run (g.reset s) n = g.run g.initState n := by
  have hstate : g.reset s = g.initState := by
    cases s
    simp_all [PNGen.reset, PNGen.initState]
  rw [hstate]

theorem reset_restores_fresh_state_witness :
    (setBob plainBobMinimus.initState).generatingCallPn = [] ∧
    plainBobMinimus.run (plainBobMinimus.reset (setBob plainBobMinimus.initState)) 3 =
      plainBobMinimus.run plainBobMinimus.initState 3 :=
  ⟨rfl, reset_restores_fresh_state_when_no_pending_call plainBobMinimus
    (setBob plainBobMinimus.initState) rfl 3⟩

/-! ## RegressionRhythm (`wheatley/rhythm/regression.py`)

Times, intervals and weights are modelled by `ℚ` (the intended real
arithmetic of the float code; the `float('inf')` sentinel used while waiting
for a pull-off is outside this model).  The transcendental weight function
`math.exp` is kept abstract as a parameter `expFn`, so every theorem below
holds for the true exponential in particular. -/

structure RegrState where
  preferredInertia : ℚ
  initialInertia : ℚ
  pealSpeed : ℚ
  handstrokeGap : ℚ
  minBellsInDataset : Nat
  maxBellsInDataset : Nat
  stage : Nat
  startTime : ℚ
  blowInterval : ℚ
  realStartTime : ℚ
  expectedBells : List ((Nat × Bool) × (Nat × Nat))
  dataSet : List (ℚ × ℚ × ℚ)

/-- `peal_speed_to_blow_interval` (`regression.py` lines 55-59). -/
def peal_speed_to_blow_interval (pealMinutes : ℚ) (numBells : Nat) : ℚ :=
  pealMinutes * 60 / 2520 / (numBells * 2 + 1)

/-- `lerp` (`regression.py` lines 70-75). -/
def lerp (a b t : ℚ) : ℚ :=
  (1 - t) * a + t * b

/-- `RegressionRhythm.index_to_blow_time` (`regression.py` lines 304-306);
`row_number // 2` is Nat division. -/
def index_to_blow_time (s : RegrState) (rowNumber place : Nat) : ℚ :=
  rowNumber * s.stage + place + (rowNumber / 2 : Nat) * s.handstrokeGap

/-- `RegressionRhythm.real_time_to_blow_time` (`regression.py` lines 319-321). -/
def real_time_to_blow_time (s : RegrState) (realTime : ℚ) : ℚ :=
  (realTime - s.startTime) / s.blowInterval

/-- `calculate_regression` (`regression.py` lines 31-49): the closed form of
the 2-parameter weighted least squares `(XᵀWX)⁻¹XᵀWy` for a design matrix of
`(1, blow_time)` rows, written out through the 2x2 matrix inverse.  A dataset
entry is `(blow_time, real_time, weight)`.  (For a singular matrix numpy
raises `LinAlgError`; in `ℚ` the division by a zero determinant yields 0.) -/
def calculate_regression (ds : List (ℚ × ℚ × ℚ)) : ℚ × ℚ :=
  let sw := (ds.map fun d => d.2.2).sum
  let swb := (ds.map fun d => d.2.2 * d.1).sum
  let swb2 := (ds.map fun d => d.2.2 * d.1 * d.1).sum
  let swr := (ds.map fun d => d.2.2 * d.2.1).sum
  let swbr := (ds.map fun d => d.2.2 * d.1 * d.2.1).sum
  let det := sw * swb2 - swb * swb
  ((swb2 * swr - swb * swbr) / det, (sw * swbr - swb * swr) / det)

/-- `RegressionRhythm._add_data_point` (`regression.py` lines 126-153):
append the observation, prune near-zero weights, forget the oldest point once
the dataset is full, and (unless inertia is 1 or the dataset is too small)
blend the recomputed regression line into `(start_time, blow_interval)`. -/
def addDataPoint (s : RegrState) (rowNumber place : Nat) (realTime weight : ℚ) :
    RegrState :=
  let blowTime := index_to_blow_time s rowNumber place
  let ds1 := (s.dataSet ++ [(blowTime, realTime, weight)]).filter
    fun d => d.2.2 > 1 / 1000
  let ds2 := if ds1.length ≥ s.maxBellsInDataset then ds1.tail else ds1
  let s1 := { s with dataSet := ds2 }
  let inertia := if rowNumber > 0 then s.preferredInertia else s.initialInertia
  if inertia = 1 then s1
  else if ds2.length ≥ s.minBellsInDataset then
    let nr := calculate_regression ds2
    { s1 with startTime := lerp nr.1 s.startTime inertia,
              blowInterval := lerp nr.2 s.blowInterval inertia }
  else s1

/-- Lookup in the `_expected_bells` map, keyed by `(bell, stroke)`. -/
def lookupEB : List ((Nat × Bool) × (Nat × Nat)) → Nat × Bool → Option (Nat × Nat)
  | [], _ => none
  | (k, v) :: rest, key => if k = key then some v else lookupEB rest key

/-- Deletion from the `_expected_bells` map (`del self._expected_bells[...]`). -/
def removeEB (m : List ((Nat × Bool) × (Nat × Nat))) (key : Nat × Bool) :
    List ((Nat × Bool) × (Nat × Nat)) :=
  m.filter fun kv => kv.1 ≠ key

/-- `RegressionRhythm.on_bell_ring` (`regression.py` lines 240-275).  When the
bell was expected at this stroke, the observation is weighted by
`exp(-diff²)` (full weight for the first two observations) and added to the
dataset, and the expectation is discharged; an unexpected ring only logs. -/
def on_bell_ring (expFn : ℚ → ℚ) (s : RegrState) (bell : Nat) (stroke : Bool)
    (realTime : ℚ) : RegrState :=
  match lookupEB s.expectedBells (bell, stroke) with
  | some rp =>
    let expectedBlowTime := index_to_blow_time s rp.1 rp.2
    let diff := real_time_to_blow_time s realTime - expectedBlowTime
    let s1 := if expectedBlowTime = 0 then { s with startTime := realTime } else s
    let weight := if s.dataSet.length ≤ 1 then 1 else expFn (-(diff * diff))
    let s2 := addDataPoint s1 rp.1 rp.2 realTime weight
    { s2 with expectedBells := removeEB s2.expectedBells (bell, stroke) }
  | none => s

/-- The `"peal_speed"` branch of `RegressionRhythm.change_setting`
(`regression.py` lines 214-238), with `int(value)` already performed: a
non-positive speed only logs; otherwise the new blow interval is derived from
the new peal speed and `start_time` is re-anchored so that the blow time of
the current real time is preserved (no change is made when `_blow_interval`
is 0, avoiding a division by zero). -/
def change_setting_peal_speed (s : RegrState) (v : Int) (realTime : ℚ) :
    RegrState :=
  if v ≤ 0 then s
  else
    let s1 := { s with pealSpeed := (v : ℚ) }
    if s1.blowInterval = 0 then s1
    else
      let pealSpeedInterval := peal_speed_to_blow_interval s1.pealSpeed s1.stage
      let currentBellTime := real_time_to_blow_time s1 realTime
      { s1 with blowInterval := pealSpeedInterval,
                startTime := realTime - currentBellTime * pealSpeedInterval }

/-- C6: for every rhythm state with non-zero `_blow_interval`, every positive
integer peal speed `v` and every real time `t`, `change_setting("peal_speed",
v, t)` adopts the blow interval derived from `v` while re-anchoring
`start_time` so the predicted real time of the current position is unchanged:
with `b = (t - old_start_time) / old_blow_interval`, the new line satisfies
`new_start_time + new_blow_interval * b = t`. -/
theorem change_peal_speed_no_time_jump (s : RegrState) (v : Int) (t : ℚ)
    (hbi : s.blowInterval ≠ 0) (hv : 0 < v) :
    (change_setting_peal_speed s v t).blowInterval =
      peal_speed_to_blow_interval (v : ℚ) s.stage ∧
    (change_setting_peal_speed s v t).startTime +
      (change_setting_peal_speed s v t).blowInterval *
        ((t - s.startTime) / s.blowInterval) = t := by
  have hnle : ¬ v ≤ 0 := not_le.mpr hv
  simp only [change_setting_peal_speed, real_time_to_blow_time, if_neg hnle,
    if_neg hbi]
  exact ⟨trivial, by ring⟩

def sampleRegrState : RegrState :=
  { preferredInertia := 1 / 2, initialInertia := 0, pealSpeed := 178,
    handstrokeGap := 1, minBellsInDataset := 4, maxBellsInDataset := 15,
    stage := 6, startTime := 10, blowInterval := 1, realStartTime := 10,
    expectedBells := [((3, true), (0, 2))], dataSet := [] }

theorem change_peal_speed_no_time_jump_witness :
    sampleRegrState.blowInterval ≠ 0 ∧ (0 : Int) < 120 ∧
    (change_setting_peal_speed sampleRegrState 120 25).blowInterval =
      peal_speed_to_blow_interval (120 : ℚ) sampleRegrState.stage ∧
    (change_setting_peal_speed sampleRegrState 120 25).startTime +
      (change_setting_peal_speed sampleRegrState 120 25).blowInterval *
        ((25 - sampleRegrState.startTime) / sampleRegrState.blowInterval) = 25 :=
  ⟨by decide, by decide,
    change_peal_speed_no_time_jump sampleRegrState 120 25 (by decide) (by decide)⟩

/-- C7: when `(bell, stroke)` is not a key of `_expected_bells`,
`on_bell_ring` leaves the whole regression state unchanged — in particular
`data_set`, `_start_time`, `_blow_interval` and `_expected_bells` are
identical before and after the call, for any weight function. -/
theorem on_bell_ring_unexpected_is_noop (expFn : ℚ → ℚ) (s : RegrState)
    (bell : Nat) (stroke : Bool) (t : ℚ)
    (h : lookupEB s.expectedBells (bell, stroke) = none) :
    on_bell_ring expFn s bell stroke t = s := by
  simp [on_bell_ring, h]

theorem on_bell_ring_unexpected_is_noop_witness :
    lookupEB sampleRegrState.expectedBells (2, true) = none ∧
    on_bell_ring (fun q => q) sampleRegrState 2 true 37 = sampleRegrState :=
  ⟨rfl, on_bell_ring_unexpected_is_noop (fun q => q) sampleRegrState 2 true 37 rfl⟩

/-! ## WaitForUserRhythm (`wheatley/rhythm/wait_for_user.py`)

The decorator's own bookkeeping state.  Calls forwarded to the wrapped inner
rhythm (`self._inner_rhythm.…`) only mutate the inner rhythm (modelled above
as `RegrState`) and never feed back into this bookkeeping, so they are left
out of these definitions.  Sets may heterogeneously contain bells and strokes
(Python sets are untyped, and `expect_bell` adds a *stroke* to a set of rung
bells), hence the element type `Nat ⊕ Bool`. -/

structure WState where
  currentStroke : Bool
  rungBells : Bool → String → Finset (Nat ⊕ Bool)
  earlyBells : Bool → Finset Nat
  bellsToUser : List (Nat × String)
  waitUserCount : String → Nat
  delay : ℚ

/-- Lookup in the `_bells_to_user` dict. -/
def lookupUser : List (Nat × String) → Nat → Option String
  | [], _ => none
  | (k, v) :: rest, key => if k = key then some v else lookupUser rest key

/-- The decorator part of `WaitForUserRhythm.on_bell_ring` (`wait_for_user.py`
lines 106-126).  On the current stroke the bell is recorded as rung for its
user and any stale early record for it is discarded; on the other stroke the
bell is recorded as early for the opposite of the current stroke.  `none`
models the `KeyError` from `self._bells_to_user[bell]` when the bell was never
expected. -/
def wOnBellRing (w : WState) (bell : Nat) (stroke : Bool) : Option WState :=
  if stroke = w.currentStroke then
    match lookupUser w.bellsToUser bell with
    | none => none
    | some user =>
      let w1 :=
        { w with
          rungBells := fun st u =>
            if st = w.currentStroke ∧ u = user then
              insert (Sum.inl bell) (w.rungBells st u)
            else w.rungBells st u }
      some
        { w1 with
          earlyBells := fun st =>
            if st = !w.currentStroke then (w1.earlyBells st).erase bell
            else w1.earlyBells st }
  else
    some
      { w with
        earlyBells := fun st =>
          if st = !w.currentStroke then insert bell (w.earlyBells st)
          else w.earlyBells st }

/-- The decorator part of `WaitForUserRhythm.expect_bell` (`wait_for_user.py`
lines 80-100).  On a stroke change the rung and wait-count records for the new
stroke are cleared, as are the early records of the opposite stroke; then a
bell that already rang early for this stroke is credited as rung — faithfully
to the source, what is inserted into the rung set is the *stroke* value
(`self._rung_bells[expected_stroke][user].add(expected_stroke)`), not the
bell.  Finally the bell is (re)bound to its user. -/
def wExpectBell (w : WState) (bell : Nat) (user : String) (stroke : Bool) :
    WState :=
  let w1 :=
    if stroke ≠ w.currentStroke then
      { w with currentStroke := stroke,
               rungBells := fun st u => if st = stroke then ∅ else w.rungBells st u,
               earlyBells := fun st => if st = !stroke then ∅ else w.earlyBells st,
               waitUserCount := fun _ => 0 }
    else w
  let w2 :=
    if bell ∈ w1.earlyBells stroke then
      { w1 with
        rungBells := fun st u =>
          if st = stroke ∧ u = user then
            insert (Sum.inr stroke) (w1.rungBells st u)
          else w1.rungBells st u }
    else w1
  { w2 with bellsToUser := (bell, user) :: w2.bellsToUser }

/-- Entry into the user-wait of `WaitForUserRhythm.wait_for_bell_time`
(`wait_for_user.py` lines 49-71) for a user-controlled bell: the current
stroke is switched if it disagrees, the user's wait count is incremented, and
the returned flag says whether the waiting loop
`while self._wait_user_count[user] > len(self._rung_bells[stroke][user])`
would block (i.e. whether its condition holds on entry, so that the bell
would have to ring again before the wait can finish).  `none` models the
`KeyError` from `self._bells_to_user[bell]`. -/
def wWaitEntry (w : WState) (bell : Nat) (stroke : Bool) : Option (WState × Bool) :=
  let w1 := if stroke ≠ w.currentStroke then { w with currentStroke := stroke } else w
  match lookupUser w1.bellsToUser bell with
  | none => none
  | some user =>
    let w2 :=
      { w1 with
        waitUserCount := fun u =>
          if u = user then w1.waitUserCount u + 1 else w1.waitUserCount u }
    some (w2, decide (w2.waitUserCount user > (w2.rungBells stroke user).card))

/-- The scenario of the early-strike claim, composed from the three source
operations: the bell rings at `stroke`, then `expect_bell` arrives for it at
`stroke`, then `wait_for_bell_time` starts waiting for it at `stroke`; the
result is the blocking flag of that wait. -/
def wouldWaitAfterEarlyRing (w : WState) (bell : Nat) (user : String)
    (stroke : Bool) : Option Bool :=
  (wOnBellRing w bell stroke).bind fun w1 =>
    (wWaitEntry (wExpectBell w1 bell user stroke) bell stroke).map Prod.snd

/-- C8: if a user-controlled bell rings at stroke `s` while the decorator's
current stroke is the opposite of `s` (so `on_bell_ring` records it as early
for `s`), then once `expect_bell` is called for that bell at `s` the bell is
credited as already rung, and the wait of `wait_for_bell_time` for that bell
at `s` terminates without the bell having to ring again. -/
theorem early_ring_credited_no_wait (w : WState) (bell : Nat) (user : String)
    (stroke : Bool) (h : w.currentStroke = !stroke) :
    wouldWaitAfterEarlyRing w bell user stroke = some false := by
  simp [wouldWaitAfterEarlyRing, wOnBellRing, wExpectBell, wWaitEntry,
    lookupUser, h, Bool.not_not]

def sampleWState : WState :=
  { currentStroke := true, rungBells := fun _ _ => ∅, earlyBells := fun _ => ∅,
    bellsToUser := [], waitUserCount := fun _ => 0, delay := 0 }

theorem early_ring_credited_no_wait_witness :
    sampleWState.currentStroke = !false ∧
    wouldWaitAfterEarlyRing sampleWState 3 "Alice" false = some false :=
  ⟨rfl, early_ring_credited_no_wait sampleWState 3 "Alice" false rfl⟩

/-! ## Ringing state machine (`wheatley/bot.py`)

`Bot` is modelled with its configuration (tower size, flags, and the row
generator — kept abstract as a state machine over a state type `σ`) separated
from its per-touch mutable state.  Calls into the rhythm (`expect_bell`) and
outgoing network messages (`_make_call`) do not mutate this state and are
omitted. -/

structure BotCfg (σ : Type) where
  stopAtRounds : Bool
  towerBells : Nat
  openingRow : List Nat
  roundsRow : List Nat
  genStage : Nat
  genStartStrokeIsHand : Bool
  genNextRowAndCalls : σ → Bool → List Nat × List String × σ
  genReset : σ → σ
  genEarlyCalls : σ → Nat → Option (List String)

structure BotState (σ : Type) where
  isRinging : Bool
  isRingingRounds : Bool
  isRingingOpeningRow : Bool
  roundsLeftBeforeMethod : Option Nat
  rowsLeftBeforeRounds : Option Nat
  shouldStand : Bool
  rowNumber : Nat
  place : Nat
  row : List Nat
  calls : List String
  genState : σ

/-- `Bot._check_number_of_bells` (`bot.py` lines 208-236) for the current row
generator: `False` for the placeholder stage 0 and for a tower smaller than
the stage (the surplus-bells branch only logs and still returns `True`). -/
def check_number_of_bells {σ : Type} (cfg : BotCfg σ) : Bool :=
  if cfg.genStage = 0 then false
  else if cfg.towerBells < cfg.genStage then false
  else true

/-- `Bot.generate_next_row` (`bot.py` lines 364-377): the opening row while
ringing the opening row, rounds while ringing rounds, and otherwise the next
generated row (padded with cover bells from the opening row), together with
its calls.  The generator receives the stroke `Stroke.from_index(row_number)`. -/
def generate_next_row {σ : Type} (cfg : BotCfg σ) (s : BotState σ) : BotState σ :=
  if s.isRingingOpeningRow then { s with row := cfg.openingRow }
  else if s.isRingingRounds then { s with row := cfg.roundsRow }
  else
    let rcs := cfg.genNextRowAndCalls s.genState (decide (s.rowNumber % 2 = 0))
    let padded :=
      if rcs.1.length < cfg.openingRow.length then
        rcs.1 ++ cfg.openingRow.drop rcs.1.length
      else rcs.1
    { s with row := padded, calls := rcs.2.1, genState := rcs.2.2 }

/-- Lines 420-425 of `bot.py`: at a handstroke boundary a pending Stand is
consumed and ringing stops. -/
def standPhase {σ : Type} (s : BotState σ) (nextStrokeIsHand : Bool) :
    BotState σ :=
  if nextStrokeIsHand && s.shouldStand then
    { s with shouldStand := false, isRinging := false }
  else s

/-- Lines 427-437 of `bot.py`: the two ways of coming round after a
"That's All", and the decrement of the rows-before-rounds counter. -/
def roundsPhase {σ : Type} (s : BotState σ) (hasJustRungRounds : Bool) :
    BotState σ :=
  let sB :=
    if s.rowsLeftBeforeRounds = some 0 ∨
        (hasJustRungRounds = true ∧ s.rowsLeftBeforeRounds ≠ none) then
      { s with rowsLeftBeforeRounds := none, isRingingRounds := true }
    else s
  match sB.rowsLeftBeforeRounds with
  | some n => { sB with rowsLeftBeforeRounds := some (n - 1) }
  | none => sB

/-- The tail of `Bot.start_next_row` (`bot.py` lines 420-448): the Stand check,
the rounds logic, the early return once `_is_ringing` is `False`, and the
generation of the next row. -/
def standAndRoundsPhase {σ : Type} (cfg : BotCfg σ) (s : BotState σ)
    (nextStrokeIsHand hasJustRungRounds : Bool) : BotState σ :=
  if (roundsPhase (standPhase s nextStrokeIsHand) hasJustRungRounds).isRinging then
    generate_next_row cfg (roundsPhase (standPhase s nextStrokeIsHand) hasJustRungRounds)
  else roundsPhase (standPhase s nextStrokeIsHand) hasJustRungRounds

/-- The head of `Bot.start_next_row` (`bot.py` lines 379-418): reset the
place, advance the row number, arm a Stand for handbell-style stopping at
rounds, stage the early calls, and start the method when its counter reaches
zero (forcing rounds when the tower is too small, and resetting the row
generator).  The result is `none` when the assertion
`next_stroke == self.row_generator.start_stroke()` fails; otherwise it is the
state to which the stand/rounds/generation tail is applied. -/
def preStandState {σ : Type} (cfg : BotCfg σ) (s : BotState σ) (isFirstRow : Bool) :
    Option (BotState σ) :=
  let s1 :=
    { s with place := 0, rowNumber := if isFirstRow then 0 else s.rowNumber + 1 }
  let s2 :=
    if cfg.stopAtRounds && decide (s1.row = cfg.roundsRow) && !s1.isRingingOpeningRow then
      { s1 with shouldStand := true }
    else s1
  match s2.roundsLeftBeforeMethod with
  | some 0 =>
    let s3 := { s2 with calls := (cfg.genEarlyCalls s2.genState 0).getD [] }
    if decide (s1.rowNumber % 2 = 0) = cfg.genStartStrokeIsHand then
      let s4 :=
        { s3 with roundsLeftBeforeMethod := none, isRingingRounds := false,
                  isRingingOpeningRow := false }
      let s5 := if check_number_of_bells cfg then s4 else { s4 with isRingingRounds := true }
      some { s5 with genState := cfg.genReset s5.genState }
    else none
  | some (n + 1) =>
    let s3 := { s2 with calls := (cfg.genEarlyCalls s2.genState (n + 1)).getD [] }
    some { s3 with roundsLeftBeforeMethod := some n }
  | none => some s2

/-- `Bot.start_next_row` (`bot.py` lines 379-448): the state preparation and
method start of `preStandState` followed by the stand/rounds/generation tail.
The stroke of the row about to start and the rounds comparison are those of
the updated state (`Stroke.from_index(self._row_number)` and
`self._row == self._rounds`). -/
def start_next_row {σ : Type} (cfg : BotCfg σ) (s : BotState σ)
    (isFirstRow : Bool) : Option (BotState σ) :=
  (preStandState cfg s isFirstRow).map fun sX =>
    standAndRoundsPhase cfg sX
      (decide ((if isFirstRow then 0 else s.rowNumber + 1) % 2 = 0))
      (decide (s.row = cfg.roundsRow))

theorem generate_next_row_fields {σ : Type} (cfg : BotCfg σ) (s : BotState σ) :
    (generate_next_row cfg s).isRinging = s.isRinging ∧
    (generate_next_row cfg s).shouldStand = s.shouldStand ∧
    (generate_next_row cfg s).rowNumber = s.rowNumber := by
  unfold generate_next_row
  split
  · exact ⟨rfl, rfl, rfl⟩
  · split
    · exact ⟨rfl, rfl, rfl⟩
    · exact ⟨rfl, rfl, rfl⟩

theorem roundsPhase_fields {σ : Type} (s : BotState σ) (hjr : Bool) :
    (roundsPhase s hjr).isRinging = s.isRinging ∧
    (roundsPhase s hjr).shouldStand = s.shouldStand ∧
    (roundsPhase s hjr).rowNumber = s.rowNumber := by
  unfold roundsPhase
  by_cases hc : s.rowsLeftBeforeRounds = some 0 ∨
      (hjr = true ∧ s.rowsLeftBeforeRounds ≠ none)
  · rw [if_pos hc]
    exact ⟨rfl, rfl, rfl⟩
  · rw [if_neg hc]
    cases hr : s.rowsLeftBeforeRounds with
    | none => simp [hr]
    | some n => simp [hr]

theorem standPhase_fields {σ : Type} (s : BotState σ) (nsh : Bool) :
    (standPhase s nsh).isRinging =
      (if nsh && s.shouldStand then false else s.isRinging) ∧
    (standPhase s nsh).shouldStand =
      (if nsh && s.shouldStand then false else s.shouldStand) ∧
    (standPhase s nsh).rowNumber = s.rowNumber := by
  by_cases h : (nsh && s.shouldStand) = true
  · simp [standPhase, h]
  · simp [standPhase, h]

theorem standAndRoundsPhase_fields {σ : Type} (cfg : BotCfg σ) (s : BotState σ)
    (nsh hjr : Bool) :
    (standAndRoundsPhase cfg s nsh hjr).isRinging =
      (if nsh && s.shouldStand then false else s.isRinging) ∧
    (standAndRoundsPhase cfg s nsh hjr).shouldStand =
      (if nsh && s.shouldStand then false else s.shouldStand) ∧
    (standAndRoundsPhase cfg s nsh hjr).rowNumber = s.rowNumber := by
  unfold standAndRoundsPhase
  have hrp := roundsPhase_fields (standPhase s nsh) hjr
  have hsp := standPhase_fields s nsh
  have h1 := hrp.1.trans hsp.1
  have h2 := hrp.2.1.trans hsp.2.1
  have h3 := hrp.2.2.trans hsp.2.2
  split
  · have hg := generate_next_row_fields cfg (roundsPhase (standPhase s nsh) hjr)
    exact ⟨hg.1.trans h1, hg.2.1.trans h2, hg.2.2.trans h3⟩
  · exact ⟨h1, h2, h3⟩

theorem preStandState_fields {σ : Type} (cfg : BotCfg σ) (s : BotState σ)
    (b : Bool) (sX : BotState σ) (h : preStandState cfg s b = some sX) :
    sX.isRinging = s.isRinging ∧
    (s.shouldStand = true → sX.shouldStand = true) ∧
    sX.rowNumber = (if b then 0 else s.rowNumber + 1) := by
  by_cases hstop : (cfg.stopAtRounds && decide (s.row = cfg.roundsRow) &&
      !s.isRingingOpeningRow) = true
  all_goals cases hrl : s.roundsLeftBeforeMethod with
  | none =>
    simp only [preStandState, hstop, hrl, if_true, if_false, Bool.false_eq_true,
      Option.some.injEq] at h
    all_goals subst h
    all_goals simp_all
  | some n =>
    cases n with
    | zero =>
      by_cases hass : (decide (((if b then 0 else s.rowNumber + 1) : Nat) % 2 = 0) =
          cfg.genStartStrokeIsHand)
      all_goals simp only [preStandState, hstop, hrl, hass, if_true, if_false,
        Bool.false_eq_true, Option.some.injEq, reduceCtorEq] at h
      all_goals subst h
      all_goals constructor
      all_goals try constructor
      all_goals intros
      all_goals simp_all [apply_ite BotState.isRinging,
        apply_ite BotState.shouldStand, apply_ite BotState.rowNumber]
    | succ m =>
      simp only [preStandState, hstop, hrl, if_true, if_false, Bool.false_eq_true,
        Option.some.injEq] at h
      all_goals subst h
      all_goals simp_all

/-- Structure of every successful `start_next_row` call: the result is the
stand/rounds/generation tail applied to an intermediate state whose
`isRinging` equals the caller's, whose `shouldStand` is preserved when set,
and whose row number is the incremented (or reset) one. -/
theorem start_next_row_shape {σ : Type} (cfg : BotCfg σ) (s : BotState σ)
    (b : Bool) (s' : BotState σ) (h : start_next_row cfg s b = some s') :
    ∃ (sX : BotState σ) (hjrX : Bool),
      s' = standAndRoundsPhase cfg sX
        (decide ((if b then 0 else s.rowNumber + 1) % 2 = 0)) hjrX ∧
      sX.isRinging = s.isRinging ∧
      (s.shouldStand = true → sX.shouldStand = true) ∧
      sX.rowNumber = (if b then 0 else s.rowNumber + 1) := by
  unfold start_next_row at h
  rw [Option.map_eq_some'] at h
  obtain ⟨sX, hpre, hmap⟩ := h
  obtain ⟨h1, h2, h3⟩ := preStandState_fields cfg s b sX hpre
  exact ⟨sX, decide (s.row = cfg.roundsRow), hmap.symm, h1, h2, h3⟩

/-- C9: a pending Stand takes effect only at a handstroke boundary.  First,
whenever `start_next_row` turns `_is_ringing` from `True` to `False` (which it
does only through `_should_stand`), the row about to start has an even row
number, i.e. is a handstroke.  Second, a Stand pending before a backstroke row
does not stop that backstroke: the machine keeps ringing with the flag still
set, and the next `start_next_row` (the following handstroke) stops it. -/
theorem stand_applies_only_at_handstroke {σ : Type} (cfg : BotCfg σ) :
    (∀ (s s' : BotState σ) (b : Bool),
      start_next_row cfg s b = some s' → s.isRinging = true →
      s'.isRinging = false → s'.rowNumber % 2 = 0) ∧
    (∀ (s s' : BotState σ),
      start_next_row cfg s false = some s' → s.isRinging = true →
      s.shouldStand = true → s'.rowNumber % 2 = 1 →
      s'.isRinging = true ∧ s'.shouldStand = true ∧
      ∀ s'' : BotState σ, start_next_row cfg s' false = some s'' →
        s''.isRinging = false) := by
  constructor
  · intro s s' b h hring hstop
    obtain ⟨sX, hjrX, rfl, hir, _, hrow⟩ := start_next_row_shape cfg s b s' h
    have hf := standAndRoundsPhase_fields cfg sX
      (decide ((if b then 0 else s.rowNumber + 1) % 2 = 0)) hjrX
    rw [hf.2.2, hrow]
    rw [hf.1, hir, hring] at hstop
    by_cases hn : ((if b then 0 else s.rowNumber + 1) % 2 = 0)
    · exact hn
    · simp [hn] at hstop
  · intro s s' h hring hstand hodd
    obtain ⟨sX, hjrX, rfl, hir, hpres, hrow⟩ := start_next_row_shape cfg s false s' h
    have hf := standAndRoundsPhase_fields cfg sX
      (decide ((if (false : Bool) = true then 0 else s.rowNumber + 1) % 2 = 0)) hjrX
    rw [hf.2.2, hrow] at hodd
    have hodd' : (s.rowNumber + 1) % 2 = 1 := by simpa using hodd
    have hnsh : (decide ((if (false : Bool) = true then 0 else s.rowNumber + 1)
        % 2 = 0)) = false := by
      simp
      omega
    rw [hnsh] at hf
    have k1 : (standAndRoundsPhase cfg sX false hjrX).isRinging = true := by
      rw [hf.1, Bool.false_and]
      simpa [hir] using hring
    have k2 : (standAndRoundsPhase cfg sX false hjrX).shouldStand = true := by
      rw [hf.2.1, Bool.false_and]
      simpa using hpres hstand
    rw [hnsh]
    refine ⟨k1, k2, ?_⟩
    intro s'' h''
    obtain ⟨sY, hjrY, rfl, hirY, hpresY, _⟩ :=
      start_next_row_shape cfg _ false s'' h''
    have hrowX : (standAndRoundsPhase cfg sX false hjrX).rowNumber % 2 = 1 := by
      rw [hf.2.2, hrow]
      simpa using hodd'
    have hnshY : (decide ((if (false : Bool) = true then 0 else
        (standAndRoundsPhase cfg sX false hjrX).rowNumber + 1) % 2 = 0)) = true := by
      simp
      omega
    have hfY := standAndRoundsPhase_fields cfg sY
      (decide ((if (false : Bool) = true then 0 else
        (standAndRoundsPhase cfg sX false hjrX).rowNumber + 1) % 2 = 0)) hjrY
    rw [hnshY] at hfY
    rw [hnshY, hfY.1, hpresY k2]
    simp

def sampleBotCfg : BotCfg Unit :=
  { stopAtRounds := false, towerBells := 4, openingRow := rounds 4,
    roundsRow := rounds 4, genStage := 4, genStartStrokeIsHand := true,
    genNextRowAndCalls := fun u _ => (rounds 4, [], u),
    genReset := fun u => u, genEarlyCalls := fun _ _ => none }

def sampleBotState : BotState Unit :=
  { isRinging := true, isRingingRounds := true, isRingingOpeningRow := true,
    roundsLeftBeforeMethod := none, rowsLeftBeforeRounds := none,
    shouldStand := true, rowNumber := 0, place := 3, row := rounds 4,
    calls := [], genState := () }

def sampleBotStateAfterBack : BotState Unit :=
  { isRinging := true, isRingingRounds := true, isRingingOpeningRow := true,
    roundsLeftBeforeMethod := none, rowsLeftBeforeRounds := none,
    shouldStand := true, rowNumber := 1, place := 0, row := rounds 4,
    calls := [], genState := () }

def sampleBotStateStood : BotState Unit :=
  { isRinging := false, isRingingRounds := true, isRingingOpeningRow := true,
    roundsLeftBeforeMethod := none, rowsLeftBeforeRounds := none,
    shouldStand := false, rowNumber := 2, place := 0, row := rounds 4,
    calls := [], genState := () }

theorem stand_applies_only_at_handstroke_witness :
    start_next_row sampleBotCfg sampleBotState false = some sampleBotStateAfterBack ∧
    sampleBotStateAfterBack.isRinging = true ∧
    sampleBotStateAfterBack.shouldStand = true ∧
    start_next_row sampleBotCfg sampleBotStateAfterBack false =
      some sampleBotStateStood ∧
    sampleBotStateStood.isRinging = false := by
  have k := (stand_applies_only_at_handstroke sampleBotCfg).2 sampleBotState
    sampleBotStateAfterBack rfl rfl rfl rfl
  exact ⟨rfl, k.1, k.2.1, rfl, k.2.2 sampleBotStateStood rfl⟩

end Wheatley
